import Mathlib

/-!
Verification development for the iData analysis engine (src/main.py).

Embedding conventions:
* Python floats are modelled as exact rationals.
* Python `int(x)` truncates toward zero: `pyTrunc`.
* Python `round(x)` rounds half to even: `pyRound`.
* Python `datetime` values are modelled by the record `PyDateTime`
  (calendar date, hour, minute, second, microsecond) with the
  lexicographic order; `timedelta` steps act on the fields.
* Randomness (`random.choice`, `random.randint`) is modelled by passing
  the outcome of each potential draw explicitly; theorems quantify over
  all outcomes satisfying the documented contract of the library call.
* `list.sort()` on integers is modelled by a stable insertion sort,
  which produces the same output list (the ascending reordering).
-/

/-- Python `int()` on a float: truncation toward zero
(equal to the ceiling on negatives, written through `Int.floor`). -/
def pyTrunc (q : ℚ) : ℤ := if 0 ≤ q then ⌊q⌋ else -⌊-q⌋

/-- Python `round()` to an integer: round half to even. -/
def pyRound (q : ℚ) : ℤ :=
  if q - ⌊q⌋ = 1/2 then (if ⌊q⌋ % 2 = 0 then ⌊q⌋ else ⌊q⌋ + 1) else ⌊q + 1/2⌋

/-- Python `datetime`: calendar date (`day` counts whole days), plus
hour, minute, second and microsecond within the day. -/
structure PyDateTime where
  day : ℤ
  hour : ℤ
  minute : ℤ
  second : ℤ
  micro : ℤ
deriving DecidableEq

/-- Python `datetime` comparison: lexicographic on the fields. -/
def PyDateTime.lt (a b : PyDateTime) : Prop :=
  a.day < b.day ∨ (a.day = b.day ∧
    (a.hour < b.hour ∨ (a.hour = b.hour ∧
      (a.minute < b.minute ∨ (a.minute = b.minute ∧
        (a.second < b.second ∨ (a.second = b.second ∧ a.micro < b.micro)))))))

instance (a b : PyDateTime) : Decidable (PyDateTime.lt a b) := by
  unfold PyDateTime.lt; infer_instance

/-- Python `datetime` non-strict comparison. -/
def PyDateTime.le (a b : PyDateTime) : Prop := PyDateTime.lt a b ∨ a = b

instance (a b : PyDateTime) : Decidable (PyDateTime.le a b) := by
  unfold PyDateTime.le; infer_instance

/-- `dt + timedelta(hours=h)` (carrying whole days; the callers only ever
step from hours 9..15, so the carry never fires there). -/
def PyDateTime.addHours (d : PyDateTime) (h : ℤ) : PyDateTime :=
  { d with day := d.day + (d.hour + h) / 24, hour := (d.hour + h) % 24 }

/-- `dt + timedelta(days=n)`. -/
def PyDateTime.addDays (d : PyDateTime) (n : ℤ) : PyDateTime :=
  { d with day := d.day + n }

/-- `dt.replace(hour=h, minute=0, second=0)` (the microsecond is kept,
exactly as in the source). -/
def PyDateTime.replaceHMS (d : PyDateTime) (h : ℤ) : PyDateTime :=
  { d with hour := h, minute := 0, second := 0 }

/-- One OHLCV bar (`Candle` in src/main.py). -/
structure Candle where
  date : PyDateTime
  «open» : ℚ
  high : ℚ
  low : ℚ
  close : ℚ
  volume : ℤ
deriving DecidableEq

/-- `Direction` in src/main.py. -/
inductive Direction where
  | none
  | up
  | down
deriving DecidableEq

/-- `TimeData` in src/main.py: one simulated trade attempt. -/
structure TimeData where
  threshold : ℤ
  time : PyDateTime
  start_value : ℤ
  end_value : ℤ
  end_time : PyDateTime
  is_enabled : Bool
  direction : Direction
  cut_at : ℤ
  gain : ℚ
  executed_tree : Bool
deriving DecidableEq

/-- The `datetime.now()` evaluated once when the `TimeData` dataclass is
defined; its concrete value is irrelevant to every claim, so it is
modelled by a fixed constant. -/
def classLoadTime : PyDateTime := ⟨0, 0, 0, 0, 0⟩

/-- `TimeData()` with the dataclass defaults. -/
def TimeData.default : TimeData :=
  { threshold := 0, time := classLoadTime, start_value := 0, end_value := 0,
    end_time := classLoadTime, is_enabled := false, direction := Direction.none,
    cut_at := 0, gain := 0, executed_tree := false }

/-- `DateData` in src/main.py. -/
structure DateData where
  date : PyDateTime
  times : List TimeData
deriving DecidableEq

/-- `Threshold` in src/main.py. -/
structure Threshold where
  threshold : ℤ
  dates : List DateData
deriving DecidableEq

/-- The list of distinct calendar days of the candles, in order of first
occurrence (the iteration order of the `defaultdict` in
`average_daily_gap`). -/
def dayKeys (candles : List Candle) : List ℤ :=
  candles.foldl (fun ks c => if c.date.day ∈ ks then ks else ks ++ [c.date.day]) []

/-- The candles falling on calendar day `d`, in input order. -/
def dayGroup (candles : List Candle) (d : ℤ) : List Candle :=
  candles.filter (fun c => decide (c.date.day = d))

/-- Python `max` over a list of floats (0 on the empty list, which the
source never hits because groups are nonempty). -/
def listMax (l : List ℚ) : ℚ :=
  match l with
  | [] => 0
  | x :: xs => xs.foldl max x

/-- Python `min` over a list of floats. -/
def listMin (l : List ℚ) : ℚ :=
  match l with
  | [] => 0
  | x :: xs => xs.foldl min x

/-- The daily range of day `d`: max of the highs minus min of the lows. -/
def dailyGap (candles : List Candle) (d : ℤ) : ℚ :=
  listMax ((dayGroup candles d).map Candle.high) -
    listMin ((dayGroup candles d).map Candle.low)

/-- `average_daily_gap` in src/main.py. -/
def average_daily_gap (candles : List Candle) : ℚ :=
  let gaps := (dayKeys candles).map (dailyGap candles)
  if gaps = [] then 0 else gaps.sum / gaps.length

/-- The loop of `generate_range_values`, with the accumulator kept in
reverse order (`rev.head?` is the last value emitted so far): each of
the `n` iterations appends `round(current)` unless it repeats the last
emitted value, then advances `current` by `step`. -/
def rangeLoop : ℕ → ℚ → ℚ → List ℤ → List ℤ
  | 0, _, _, rev => rev
  | n + 1, current, step, rev =>
    let val := pyRound current
    let rev2 :=
      match rev with
      | [] => [val]
      | last :: rest => if val = last then last :: rest else val :: last :: rest
    rangeLoop n (current + step) step rev2

/-- `range_vals[0] = v` (identity on the empty list; the source only
performs the assignment on a provably nonempty list). -/
def setFirst (l : List ℤ) (v : ℤ) : List ℤ :=
  match l with
  | [] => []
  | _ :: t => v :: t

/-- `range_vals[-1] = v` (identity on the empty list). -/
def setLast (l : List ℤ) (v : ℤ) : List ℤ :=
  match l with
  | [] => []
  | [_] => [v]
  | a :: b :: t => a :: setLast (b :: t) v

/-- `generate_range_values` in src/main.py. -/
def generate_range_values (min_val max_val : ℚ) (target_count : ℕ) : List ℤ :=
  let start : ℤ := pyTrunc (min_val + 1/2)
  let stop : ℤ := pyTrunc max_val
  if stop < start then []
  else
    let step : ℚ := ((stop : ℚ) - (start : ℚ)) / ((target_count : ℚ) - 1)
    let range_vals := (rangeLoop target_count (start : ℚ) step []).reverse
    setLast (setFirst range_vals start) stop

/-- The `while current <= end` loop of `generate_date_array`, driven by
an explicit iteration bound.  The bound chosen in `generate_date_array`
is provably at least the number of iterations the Python loop performs,
and when it is exhausted the guard is false anyway, so the fuelled
function computes exactly the loop result. -/
def generate_date_array_go (e : PyDateTime) : ℕ → PyDateTime → List PyDateTime
  | 0, _ => []
  | fuel + 1, current =>
    if PyDateTime.le current e then
      current :: generate_date_array_go e fuel (current.addDays 1)
    else []

/-- `generate_date_array` in src/main.py: the inclusive day sequence
from `start` to `e`, stepping by exactly one day. -/
def generate_date_array (start e : PyDateTime) : List PyDateTime :=
  generate_date_array_go e ((e.day - start.day).toNat + 1) start

/-- `random_in_bounds` in src/main.py.  `coin` is the outcome of the
`random.choice([min_val, max_val])` draw (true picks `min_val`), and
`draw` is the `random.randint` outcome as a function of the bounds
passed to it; `random.randint(a, b)` requires `a ≤ b` and returns a
value in `[a, b]`, so theorems constrain `draw` only on such bounds. -/
def random_in_bounds (min_val max_val : ℤ) (coin : Bool) (draw : ℤ → ℤ → ℤ) : ℤ :=
  if min_val = max_val then min_val
  else
    let diff := max_val - min_val
    if diff = 1 then (if coin then min_val else max_val)
    else if diff = 2 then min_val + 1
    else draw (min_val + 1) (max_val - 1)

/-- The random outcomes consumed while sampling one trading hour:
the `random.choice` over the hour bucket, and the two possible draws
inside `random_in_bounds`. -/
structure HourRand where
  pick : List Candle → Candle
  coin : Bool
  draw : ℤ → ℤ → ℤ

/-- The contract of the random library calls an `HourRand` stands for. -/
def HourRand.Valid (r : HourRand) : Prop :=
  (∀ l : List Candle, l ≠ [] → r.pick l ∈ l) ∧
  (∀ a b : ℤ, a ≤ b → a ≤ r.draw a b ∧ r.draw a b ≤ b)

/-- `get_random_hourly_candles` in src/main.py, with the random source
indexed by the trading hour (each hour consumes its own draws). -/
def get_random_hourly_candles (rnd : ℤ → HourRand) (date : PyDateTime)
    (one_minute_data : List Candle) (thr : ℤ) : List TimeData :=
  ([9, 10, 11, 12, 13, 14, 15] : List ℤ).filterMap (fun hour =>
    let start_time := date.replaceHMS hour
    let end_time := start_time.addHours 1
    let candles_in_hour := one_minute_data.filter
      (fun c => decide (PyDateTime.le start_time c.date ∧ PyDateTime.lt c.date end_time))
    if candles_in_hour = [] then Option.none
    else
      let random_candle := (rnd hour).pick candles_in_hour
      Option.some { TimeData.default with
        time := random_candle.date,
        start_value := random_in_bounds (pyTrunc random_candle.low)
          (pyTrunc random_candle.high) (rnd hour).coin (rnd hour).draw,
        threshold := thr })

/-- `run_thread` in src/main.py: one candle step of the breakout state
machine, returning the updated state and the done flag.  The Python
version mutates `time_data` in place and recurses on the same candle
right after enabling; the recursion is well-founded because the callee
sees `is_enabled = true`. -/
def run_thread (thr : ℚ) (time_data : TimeData) (candle : Candle) (margin : ℚ) :
    TimeData × Bool :=
  let cut_margin : ℚ := thr * (margin / 100)
  if time_data.end_value ≠ 0 then
    (time_data, true)
  else
    let is_up : Bool := decide (candle.close > candle.«open»)
    let upper_gap : ℤ := pyTrunc (candle.high - candle.close)
    let down_gap : ℤ := pyTrunc (candle.close - candle.low)
    let check_high : ℤ := time_data.start_value + pyTrunc thr
    let check_low : ℤ := time_data.start_value - pyTrunc thr
    let candle_high : ℤ := pyTrunc candle.high
    let candle_low : ℤ := pyTrunc candle.low
    if hEn : time_data.is_enabled then
      if time_data.direction = Direction.up then
        if candle_high < time_data.cut_at then
          ({ time_data with
              end_value := time_data.cut_at,
              end_time := candle.date,
              gain := (candle_high : ℚ) - (time_data.start_value : ℚ) - thr }, true)
        else if candle_low < time_data.cut_at then
          ({ time_data with
              end_value := time_data.cut_at,
              end_time := candle.date,
              gain := (time_data.cut_at : ℚ) - (time_data.start_value : ℚ) - thr }, true)
        else if upper_gap > pyTrunc cut_margin then
          ({ time_data with
              end_value := pyTrunc (candle.high - cut_margin),
              end_time := candle.date,
              gain := candle.high - (time_data.start_value : ℚ) - thr - cut_margin }, true)
        else if pyTrunc (candle.high - cut_margin) > time_data.cut_at then
          ({ time_data with cut_at := pyTrunc (candle.high - cut_margin) }, false)
        else
          (time_data, false)
      else
        if candle_low > time_data.cut_at then
          ({ time_data with
              end_value := time_data.cut_at,
              end_time := candle.date,
              gain := (time_data.start_value : ℚ) - (candle_low : ℚ) - thr }, true)
        else if candle_high > time_data.cut_at then
          ({ time_data with
              end_value := time_data.cut_at,
              end_time := candle.date,
              gain := (time_data.start_value : ℚ) - (time_data.cut_at : ℚ) - thr }, true)
        else if down_gap > pyTrunc cut_margin then
          ({ time_data with
              end_value := pyTrunc (candle.low + cut_margin),
              end_time := candle.date,
              gain := (time_data.start_value : ℚ) - candle.low - thr - cut_margin }, true)
        else if pyTrunc (candle.low + cut_margin) < time_data.cut_at then
          ({ time_data with cut_at := pyTrunc (candle.low + cut_margin) }, false)
        else
          (time_data, false)
    else
      if check_high ≤ candle_high ∨ check_low ≥ candle_low then
        if upper_gap > pyTrunc thr then
          ({ time_data with
              direction := Direction.up,
              end_value := pyTrunc (candle.high - cut_margin),
              end_time := candle.date,
              gain := candle.high - (time_data.start_value : ℚ) - thr - cut_margin }, true)
        else if down_gap > pyTrunc thr then
          ({ time_data with
              direction := Direction.down,
              end_value := pyTrunc (candle.low + cut_margin),
              end_time := candle.date,
              gain := (time_data.start_value : ℚ) - candle.low - thr - cut_margin }, true)
        else
          let td2 : TimeData :=
            if check_high ≤ candle_high ∧ check_low ≥ candle_low then
              { time_data with
                direction := if is_up then Direction.up else Direction.down,
                is_enabled := true,
                cut_at := if is_up then pyTrunc (candle.high - cut_margin)
                          else pyTrunc (candle.low + cut_margin) }
            else if check_high ≤ candle_high then
              { time_data with
                direction := Direction.up,
                is_enabled := true,
                cut_at := pyTrunc (candle.high - cut_margin) }
            else
              { time_data with
                direction := Direction.down,
                is_enabled := true,
                cut_at := pyTrunc (candle.low + cut_margin) }
          run_thread thr td2 candle margin
      else
        (time_data, false)
termination_by (if time_data.is_enabled then 0 else 1)
decreasing_by
  simp only [Bool.not_eq_true] at hEn
  simp only [hEn, td2]
  split
  · simp
  · split <;> simp

/-- A fuelled copy of `run_thread`, used to measure the recursion depth:
each recursive re-evaluation of the same candle consumes one unit of
fuel, and the fuelled function answers `Option.none` when the fuel runs
out before the body finishes. -/
def run_thread_fuel : ℕ → ℚ → TimeData → Candle → ℚ → Option (TimeData × Bool)
  | 0, _, _, _, _ => Option.none
  | fuel + 1, thr, time_data, candle, margin =>
    let cut_margin : ℚ := thr * (margin / 100)
    if time_data.end_value ≠ 0 then
      Option.some (time_data, true)
    else
      let is_up : Bool := decide (candle.close > candle.«open»)
      let upper_gap : ℤ := pyTrunc (candle.high - candle.close)
      let down_gap : ℤ := pyTrunc (candle.close - candle.low)
      let check_high : ℤ := time_data.start_value + pyTrunc thr
      let check_low : ℤ := time_data.start_value - pyTrunc thr
      let candle_high : ℤ := pyTrunc candle.high
      let candle_low : ℤ := pyTrunc candle.low
      if time_data.is_enabled then
        if time_data.direction = Direction.up then
          if candle_high < time_data.cut_at then
            Option.some ({ time_data with
              end_value := time_data.cut_at,
              end_time := candle.date,
              gain := (candle_high : ℚ) - (time_data.start_value : ℚ) - thr }, true)
          else if candle_low < time_data.cut_at then
            Option.some ({ time_data with
              end_value := time_data.cut_at,
              end_time := candle.date,
              gain := (time_data.cut_at : ℚ) - (time_data.start_value : ℚ) - thr }, true)
          else if upper_gap > pyTrunc cut_margin then
            Option.some ({ time_data with
              end_value := pyTrunc (candle.high - cut_margin),
              end_time := candle.date,
              gain := candle.high - (time_data.start_value : ℚ) - thr - cut_margin }, true)
          else if pyTrunc (candle.high - cut_margin) > time_data.cut_at then
            Option.some ({ time_data with cut_at := pyTrunc (candle.high - cut_margin) }, false)
          else
            Option.some (time_data, false)
        else
          if candle_low > time_data.cut_at then
            Option.some ({ time_data with
              end_value := time_data.cut_at,
              end_time := candle.date,
              gain := (time_data.start_value : ℚ) - (candle_low : ℚ) - thr }, true)
          else if candle_high > time_data.cut_at then
            Option.some ({ time_data with
              end_value := time_data.cut_at,
              end_time := candle.date,
              gain := (time_data.start_value : ℚ) - (time_data.cut_at : ℚ) - thr }, true)
          else if down_gap > pyTrunc cut_margin then
            Option.some ({ time_data with
              end_value := pyTrunc (candle.low + cut_margin),
              end_time := candle.date,
              gain := (time_data.start_value : ℚ) - candle.low - thr - cut_margin }, true)
          else if pyTrunc (candle.low + cut_margin) < time_data.cut_at then
            Option.some ({ time_data with cut_at := pyTrunc (candle.low + cut_margin) }, false)
          else
            Option.some (time_data, false)
      else
        if check_high ≤ candle_high ∨ check_low ≥ candle_low then
          if upper_gap > pyTrunc thr then
            Option.some ({ time_data with
              direction := Direction.up,
              end_value := pyTrunc (candle.high - cut_margin),
              end_time := candle.date,
              gain := candle.high - (time_data.start_value : ℚ) - thr - cut_margin }, true)
          else if down_gap > pyTrunc thr then
            Option.some ({ time_data with
              direction := Direction.down,
              end_value := pyTrunc (candle.low + cut_margin),
              end_time := candle.date,
              gain := (time_data.start_value : ℚ) - candle.low - thr - cut_margin }, true)
          else
            let td2 : TimeData :=
              if check_high ≤ candle_high ∧ check_low ≥ candle_low then
                { time_data with
                  direction := if is_up then Direction.up else Direction.down,
                  is_enabled := true,
                  cut_at := if is_up then pyTrunc (candle.high - cut_margin)
                            else pyTrunc (candle.low + cut_margin) }
              else if check_high ≤ candle_high then
                { time_data with
                  direction := Direction.up,
                  is_enabled := true,
                  cut_at := pyTrunc (candle.high - cut_margin) }
              else
                { time_data with
                  direction := Direction.down,
                  is_enabled := true,
                  cut_at := pyTrunc (candle.low + cut_margin) }
            run_thread_fuel fuel thr td2 candle margin
        else
          Option.some (time_data, false)

/-- `check_in_time_data` in src/main.py: walk the candles, skipping the
ones before the anchor time, feeding each remaining candle to
`run_thread` until it reports done; returns the final state. -/
def check_in_time_data (thr : ℤ) (time_data : TimeData)
    (one_minute_data : List Candle) (margin : ℚ) : TimeData :=
  match one_minute_data with
  | [] => time_data
  | candle :: rest =>
    if PyDateTime.lt candle.date time_data.time then
      check_in_time_data thr time_data rest margin
    else
      let r := run_thread (thr : ℚ) time_data candle margin
      if r.2 then r.1 else check_in_time_data thr r.1 rest margin

/-- `check_in_date_data` in src/main.py. -/
def check_in_date_data (thr : ℤ) (date_data : DateData)
    (one_minute_data : List Candle) (margin : ℚ) : DateData :=
  { date_data with
    times := date_data.times.map (fun td => check_in_time_data thr td one_minute_data margin) }

/-- `check_in_threshold` in src/main.py. -/
def check_in_threshold (thr_obj : Threshold) (one_minute_data : List Candle)
    (margin : ℚ) : Threshold :=
  { thr_obj with
    dates := thr_obj.dates.map (fun dd => check_in_date_data thr_obj.threshold dd one_minute_data margin) }

/-- One step of the stable insertion sort standing in for `list.sort()`. -/
def insertSorted (x : ℤ) : List ℤ → List ℤ
  | [] => [x]
  | y :: ys => if x ≤ y then x :: y :: ys else y :: insertSorted x ys

/-- `arr_threshold.sort()`: ascending stable sort on integers. -/
def sortInt (l : List ℤ) : List ℤ := l.foldr insertSorted []

/-- `analysis` in src/main.py.  The random source is indexed by
threshold, date and trading hour, so every grid cell consumes its own
draws.  Reading `one_minute_data[0]` on an empty list raises an
uncaught `IndexError` in Python; that failure is the `Option.none`
result, and it happens after the average range and the threshold list
have already been computed, exactly as in the source. -/
def analysis (one_minute_data : List Candle) (margin : ℚ)
    (rnd : ℤ → PyDateTime → ℤ → HourRand) : Option (List Threshold) :=
  let average_daily := average_daily_gap one_minute_data
  let arr_threshold := sortInt (generate_range_values (average_daily / 3) (average_daily * (3/2)) 16)
  match one_minute_data with
  | [] => Option.none
  | c0 :: rest =>
    let min_date := c0.date
    let max_date := ((c0 :: rest).getLast (List.cons_ne_nil c0 rest)).date
    let arr_dates := generate_date_array min_date max_date
    let thresholds := arr_threshold.map (fun t =>
      { threshold := t,
        dates := arr_dates.map (fun d =>
          { date := d,
            times := get_random_hourly_candles (rnd t d) d one_minute_data t }) })
    Option.some (thresholds.map (fun thr_obj => check_in_threshold thr_obj one_minute_data margin))

/-- A sample timestamp: day 0 at 09:30. -/
def dEx : PyDateTime := ⟨0, 9, 30, 0, 0⟩

/-- A second sample timestamp: day 0 at 09:31. -/
def dEx2 : PyDateTime := ⟨0, 9, 31, 0, 0⟩

/-- A generic well-formed candle used by witnesses. -/
def cEx : Candle :=
  { date := dEx, «open» := 100, high := 101, low := 99, close := 100, volume := 1 }

/-- A state already carrying a nonzero outcome. -/
def tdTerm : TimeData := { TimeData.default with end_value := 7 }

/-- An enabled up-direction state trailing a stop at 119. -/
def tdUp : TimeData :=
  { TimeData.default with
    start_value := 100,
    is_enabled := true,
    direction := Direction.up,
    cut_at := 119 }

/-- A candle whose whole range sits below the stop at 119. -/
def cBelow : Candle :=
  { date := dEx, «open» := 94, high := 95, low := 90, close := 91, volume := 1 }

/-- A candle straddling the stop at 119: low below it, high above it. -/
def cStraddle : Candle :=
  { date := dEx, «open» := 118, high := 125, low := 110, close := 124, volume := 1 }

/-- A fresh non-enabled state anchored at 100. -/
def tdFresh : TimeData := { TimeData.default with start_value := 100 }

/-- An anchor-1 fresh state that the candle `cZ1` drives to a recorded
outcome whose exit price truncates to zero. -/
def tdZ : TimeData := { TimeData.default with start_value := 1 }

/-- A candle producing an immediate down exit at `int(0.4 + 0.5) = 0`
for threshold 1 and margin 50. -/
def cZ1 : Candle :=
  { date := dEx, «open» := 1, high := 26/10, low := 4/10, close := 25/10, volume := 1 }

/-- The same prices one minute later. -/
def cZ2 : Candle :=
  { date := dEx2, «open» := 1, high := 26/10, low := 4/10, close := 25/10, volume := 1 }

/-- The state recorded after `cZ1`: a finished trade whose `end_value`
is 0, indistinguishable from a fresh state to the terminal guard. -/
def tdZ1 : TimeData :=
  { TimeData.default with
    start_value := 1,
    direction := Direction.down,
    end_time := dEx,
    gain := -(9/10) }

/-- A malformed candle whose recorded high sits below its low; the
transport shell performs no validation that would reject it. -/
def cBad : Candle :=
  { date := dEx, «open» := 5, high := 0, low := 10, close := 5, volume := 1 }

/-- A candle whose prices all equal 100.5: its truncated bounds are
both 100, strictly below the raw low. -/
def cHalf : Candle :=
  { date := dEx, «open» := 201/2, high := 201/2, low := 201/2, close := 201/2, volume := 1 }

/-- Fallback candle for the concrete pick function below. -/
def cFallback : Candle :=
  { date := dEx, «open» := 0, high := 0, low := 0, close := 0, volume := 0 }

/-- A concrete random source satisfying the library contract: pick the
first candle of a bucket, let the coin choose the lower value, and let
randint answer its lower bound. -/
def rndH : ℤ → HourRand :=
  fun _ => { pick := fun l => l.headD cFallback, coin := true, draw := fun lo _ => lo }

/-- An 08:00 timestamp, outside every trading-hour bucket. -/
def dH8 : PyDateTime := ⟨0, 8, 0, 0, 0⟩

/-- A well-formed candle at 08:00. -/
def cGood : Candle :=
  { date := dH8, «open» := 100, high := 101, low := 100, close := 100, volume := 1 }

/-- The random source used by the whole-pipeline runs below (never
actually consulted there: every hour bucket is empty). -/
def rndSrc : ℤ → PyDateTime → ℤ → HourRand := fun _ _ => rndH

/-- The grid the pipeline produces for `cGood` with margin -5. -/
def gridGood : List Threshold :=
  [{ threshold := 0, dates := [{ date := dH8, times := [] }] },
   { threshold := 1, dates := [{ date := dH8, times := [] }] }]

/-- C1: a simulator step on a state whose `end_value` is nonzero returns
done immediately and leaves every field of the state unchanged. -/
theorem run_thread_terminal_idempotent (thr margin : ℚ) (time_data : TimeData)
    (candle : Candle) (h : time_data.end_value ≠ 0) :
    run_thread thr time_data candle margin = (time_data, true) := by
  unfold run_thread
  simp [h]

/-- C1 witness: the guard fires on a concrete terminal state. -/
theorem run_thread_terminal_idempotent_witness :
    run_thread 5 tdTerm cEx 10 = (tdTerm, true) :=
  run_thread_terminal_idempotent 5 10 tdTerm cEx (by simp [tdTerm, TimeData.default])

/-- C2: in the enabled up-direction branch, a candle whose truncated high
is already strictly below `cut_at` exits at `cut_at` with gain computed
from the candle's truncated high, while a candle whose low (but not
high) is below `cut_at` exits at `cut_at` with gain computed from
`cut_at` itself. -/
theorem run_thread_up_stop_gain (thr margin : ℚ) (time_data : TimeData)
    (candle : Candle) (h0 : time_data.end_value = 0)
    (hEn : time_data.is_enabled = true) (hDir : time_data.direction = Direction.up) :
    (pyTrunc candle.high < time_data.cut_at →
      run_thread thr time_data candle margin =
        ({ time_data with
            end_value := time_data.cut_at,
            end_time := candle.date,
            gain := (pyTrunc candle.high : ℚ) - (time_data.start_value : ℚ) - thr }, true)) ∧
    (time_data.cut_at ≤ pyTrunc candle.high → pyTrunc candle.low < time_data.cut_at →
      run_thread thr time_data candle margin =
        ({ time_data with
            end_value := time_data.cut_at,
            end_time := candle.date,
            gain := (time_data.cut_at : ℚ) - (time_data.start_value : ℚ) - thr }, true)) := by
  unfold run_thread
  simp only [h0, hEn, hDir, ne_eq, not_true_eq_false, not_false_eq_true, if_false, ite_true,
    dite_true, if_true, reduceIte]
  constructor
  · intro hHigh
    rw [if_pos hHigh]
  · intro h1 h2
    rw [if_neg (not_lt.mpr h1), if_pos h2]

/-- C2 witness, first branch: high 95 below the stop 119. -/
theorem run_thread_up_stop_gain_witness :
    run_thread 5 tdUp cBelow 10 =
      ({ tdUp with
          end_value := tdUp.cut_at,
          end_time := cBelow.date,
          gain := (pyTrunc cBelow.high : ℚ) - (tdUp.start_value : ℚ) - 5 }, true) :=
  (run_thread_up_stop_gain 5 10 tdUp cBelow rfl rfl rfl).1
    (by norm_num [tdUp, cBelow, pyTrunc, TimeData.default])

/-- C8: a non-enabled, non-terminal state fed a candle that touches
neither breakout bound is returned unchanged with the continue flag. -/
theorem run_thread_untouched_noop (thr margin : ℚ) (time_data : TimeData)
    (candle : Candle) (h0 : time_data.end_value = 0)
    (hEn : time_data.is_enabled = false)
    (hh : pyTrunc candle.high < time_data.start_value + pyTrunc thr)
    (hl : time_data.start_value - pyTrunc thr < pyTrunc candle.low) :
    run_thread thr time_data candle margin = (time_data, false) := by
  unfold run_thread
  simp only [h0, hEn, ne_eq, not_true_eq_false, not_false_eq_true, if_false, dite_false,
    Bool.false_eq_true, reduceIte]
  rw [if_neg (by omega)]

/-- C8 witness: anchor 100, threshold 5, candle range [99, 101] touches
neither 105 nor 95. -/
theorem run_thread_untouched_noop_witness :
    run_thread 5 tdFresh cEx 10 = (tdFresh, false) :=
  run_thread_untouched_noop 5 10 tdFresh cEx rfl rfl
    (by norm_num [tdFresh, cEx, pyTrunc, TimeData.default])
    (by norm_num [tdFresh, cEx, pyTrunc, TimeData.default])

/-- Frame facts about the enabled branch of `run_thread`: it never
changes `is_enabled` or `direction`, and `cut_at` can only move up in
the up branch and only down otherwise. -/
theorem run_thread_enabled_frame (thr margin : ℚ) (td : TimeData) (c : Candle)
    (hEn : td.is_enabled = true) :
    (run_thread thr td c margin).1.is_enabled = true ∧
    (run_thread thr td c margin).1.direction = td.direction ∧
    (td.direction = Direction.up → td.cut_at ≤ (run_thread thr td c margin).1.cut_at) ∧
    (td.direction ≠ Direction.up → (run_thread thr td c margin).1.cut_at ≤ td.cut_at) := by
  unfold run_thread
  by_cases hT : td.end_value ≠ 0
  · rw [if_pos hT]
    exact ⟨hEn, rfl, fun _ => le_refl _, fun _ => le_refl _⟩
  · rw [if_neg hT]
    dsimp only
    rw [dif_pos hEn]
    by_cases hD : td.direction = Direction.up
    · rw [if_pos hD]
      split_ifs with h1 h2 h3 h4
      · exact ⟨hEn, rfl, fun _ => le_refl _, fun hc => absurd hD hc⟩
      · exact ⟨hEn, rfl, fun _ => le_refl _, fun hc => absurd hD hc⟩
      · exact ⟨hEn, rfl, fun _ => le_refl _, fun hc => absurd hD hc⟩
      · exact ⟨hEn, rfl, fun _ => le_of_lt h4, fun hc => absurd hD hc⟩
      · exact ⟨hEn, rfl, fun _ => le_refl _, fun hc => absurd hD hc⟩
    · rw [if_neg hD]
      split_ifs with h1 h2 h3 h4
      · exact ⟨hEn, rfl, fun hc => absurd hc hD, fun _ => le_refl _⟩
      · exact ⟨hEn, rfl, fun hc => absurd hc hD, fun _ => le_refl _⟩
      · exact ⟨hEn, rfl, fun hc => absurd hc hD, fun _ => le_refl _⟩
      · exact ⟨hEn, rfl, fun hc => absurd hc hD, fun _ => le_of_lt h4⟩
      · exact ⟨hEn, rfl, fun hc => absurd hc hD, fun _ => le_refl _⟩

/-- C3: over any sequence of candles fed to an enabled state by the
candle-walking driver, `cut_at` never decreases while the direction is
up and never increases while the direction is down. -/
theorem cut_at_monotone_while_enabled (thr : ℤ) (margin : ℚ) (td : TimeData)
    (data : List Candle) (hEn : td.is_enabled = true) :
    (td.direction = Direction.up →
      td.cut_at ≤ (check_in_time_data thr td data margin).cut_at) ∧
    (td.direction = Direction.down →
      (check_in_time_data thr td data margin).cut_at ≤ td.cut_at) := by
  induction data generalizing td with
  | nil =>
    exact ⟨fun _ => le_refl _, fun _ => le_refl _⟩
  | cons c rest ih =>
    unfold check_in_time_data
    by_cases hskip : PyDateTime.lt c.date td.time
    · rw [if_pos hskip]
      exact ih td hEn
    · rw [if_neg hskip]
      obtain ⟨f1, f2, f3, f4⟩ := run_thread_enabled_frame (thr : ℚ) margin td c hEn
      by_cases hdone : (run_thread (thr : ℚ) td c margin).2
      · rw [if_pos hdone]
        refine ⟨fun hu => f3 hu, fun hd => f4 ?_⟩
        rw [hd]
        intro hcon
        exact Direction.noConfusion hcon
      · rw [if_neg hdone]
        obtain ⟨g1, g2⟩ := ih (run_thread (thr : ℚ) td c margin).1 f1
        constructor
        · intro hu
          exact le_trans (f3 hu) (g1 (by rw [f2, hu]))
        · intro hd
          refine le_trans (g2 (by rw [f2, hd])) (f4 ?_)
          rw [hd]
          intro hcon
          exact Direction.noConfusion hcon

/-- C3 witness: an enabled up state with stop 119 keeps `cut_at` at
least 119 across a concrete candle walk. -/
theorem cut_at_monotone_while_enabled_witness :
    tdUp.cut_at ≤ (check_in_time_data 5 tdUp [cStraddle, cBelow] 10).cut_at :=
  (cut_at_monotone_while_enabled 5 10 tdUp [cStraddle, cBelow] rfl).1 rfl

/-- On an already-enabled state the simulator body never recurses, so a
single unit of fuel suffices. -/
theorem run_thread_fuel_enabled (n : ℕ) (thr margin : ℚ) (td : TimeData) (c : Candle)
    (hEn : td.is_enabled = true) :
    run_thread_fuel (n + 1) thr td c margin = Option.some (run_thread thr td c margin) := by
  unfold run_thread run_thread_fuel
  by_cases hT : td.end_value ≠ 0
  · rw [if_pos hT, if_pos hT]
  · rw [if_neg hT, if_neg hT]
    dsimp only
    rw [if_pos hEn, dif_pos hEn]
    split_ifs <;> rfl

/-- C9: the simulator terminates on every input with same-candle
recursion depth at most one; two units of fuel always reproduce the
total function (the recursive call happens only on a freshly enabled
state, and the enabled branch never recurses). -/
theorem run_thread_recursion_depth_one (thr margin : ℚ) (td : TimeData) (c : Candle) :
    run_thread_fuel 2 thr td c margin = Option.some (run_thread thr td c margin) := by
  by_cases hEn : td.is_enabled = true
  · exact run_thread_fuel_enabled 1 thr margin td c hEn
  · show run_thread_fuel (1 + 1) thr td c margin = _
    unfold run_thread run_thread_fuel
    by_cases hT : td.end_value ≠ 0
    · rw [if_pos hT, if_pos hT]
    · rw [if_neg hT, if_neg hT]
      dsimp only
      rw [if_neg hEn, dif_neg hEn]
      by_cases hTouch : td.start_value + pyTrunc thr ≤ pyTrunc c.high ∨
          td.start_value - pyTrunc thr ≥ pyTrunc c.low
      · rw [if_pos hTouch, if_pos hTouch]
        split_ifs <;>
          first
          | rfl
          | exact run_thread_fuel_enabled 0 thr margin _ c rfl
      · rw [if_neg hTouch, if_neg hTouch]

/-- C10: a reachable combination of prices and margin makes a terminal
branch record `end_value = 0`; the step reports done, yet the guard
`end_value != 0` does not protect the recorded outcome, and a later
invocation mutates the state again. -/
theorem zero_exit_price_defeats_terminal_guard :
    run_thread 1 tdZ cZ1 50 = (tdZ1, true) ∧
    tdZ1.end_value = 0 ∧
    (run_thread 1 tdZ1 cZ2 50).1 ≠ tdZ1 := by
  have hstep : ∀ td : TimeData, td.end_value = 0 → td.is_enabled = false →
      td.start_value = 1 → ∀ c : Candle, c.high = 26/10 → c.low = 4/10 →
      c.close = 25/10 →
      run_thread 1 td c 50 =
        ({ td with
            direction := Direction.down,
            end_value := 0,
            end_time := c.date,
            gain := -(9/10) }, true) := by
    intro td h0 hEn hsv c hh hl hc
    unfold run_thread
    rw [if_neg (by rw [h0]; exact fun hcon => hcon rfl)]
    dsimp only
    rw [dif_neg (by rw [hEn]; exact Bool.false_ne_true)]
    rw [if_pos (Or.inl (by rw [hsv, hh]; norm_num [pyTrunc]))]
    rw [if_neg (by rw [hh, hc]; norm_num [pyTrunc])]
    rw [if_pos (by rw [hl, hc]; norm_num [pyTrunc])]
    rw [Prod.mk.injEq]
    refine ⟨?_, rfl⟩
    have hev : pyTrunc (c.low + 1 * (50 / 100)) = 0 := by
      rw [hl]; norm_num [pyTrunc]
    have hg : (td.start_value : ℚ) - c.low - 1 - 1 * (50 / 100) = -(9/10) := by
      rw [hsv, hl]; norm_num
    rw [hev, hg]
  refine ⟨?_, rfl, ?_⟩
  · have h := hstep tdZ rfl rfl rfl cZ1 rfl rfl rfl
    rw [h]
    rw [Prod.mk.injEq]
    exact ⟨rfl, rfl⟩
  · have h := hstep tdZ1 rfl rfl rfl cZ2 rfl rfl rfl
    rw [h]
    intro hcon
    have h2 := congrArg (fun t : TimeData => t.end_time.minute) hcon
    simp only [cZ2, tdZ1, dEx, dEx2] at h2
    omega

/-- Rounding an integer returns it unchanged. -/
theorem pyRound_intCast (n : ℤ) : pyRound (n : ℚ) = n := by
  unfold pyRound
  rw [Int.floor_intCast]
  rw [if_neg (by norm_num)]
  have : (n : ℚ) + 1/2 = (n : ℚ) + (1/2 : ℚ) := rfl
  rw [Int.floor_int_add]
  norm_num

/-- Round half to even never goes below the floor. -/
theorem floor_le_pyRound (q : ℚ) : ⌊q⌋ ≤ pyRound q := by
  unfold pyRound
  split_ifs with h1 h2
  · exact le_refl _
  · omega
  · exact Int.floor_mono (by linarith)

/-- Round half to even never exceeds the floor plus one. -/
theorem pyRound_le_floor_add_one (q : ℚ) : pyRound q ≤ ⌊q⌋ + 1 := by
  unfold pyRound
  split_ifs with h1 h2
  · omega
  · exact le_refl _
  · have : ⌊q + 1/2⌋ < ⌊q⌋ + 2 := by
      rw [Int.floor_lt]
      push_cast
      have := Int.lt_floor_add_one q
      linarith
    omega

/-- Round half to even never exceeds the naive half-up rounding. -/
theorem pyRound_le_floor_add_half (q : ℚ) : pyRound q ≤ ⌊q + 1/2⌋ := by
  by_cases h1 : q - ⌊q⌋ = 1/2
  · have hq : q + 1/2 = ((⌊q⌋ + 1 : ℤ) : ℚ) := by push_cast; linarith
    have : ⌊q + 1/2⌋ = ⌊q⌋ + 1 := by rw [hq, Int.floor_intCast]
    rw [this]
    exact pyRound_le_floor_add_one q
  · unfold pyRound
    rw [if_neg h1]

/-- Round half to even is monotone. -/
theorem pyRound_mono {q r : ℚ} (h : q ≤ r) : pyRound q ≤ pyRound r := by
  by_cases hr : r - ⌊r⌋ = 1/2
  · by_cases hq : q - ⌊q⌋ = 1/2
    · rcases eq_or_lt_of_le h with rfl | hlt
      · exact le_refl _
      · have hq2 : q = (⌊q⌋ : ℚ) + 1/2 := by linarith
        have hr2 : r = (⌊r⌋ : ℚ) + 1/2 := by linarith
        have hfq : (⌊q⌋ : ℚ) < (⌊r⌋ : ℚ) := by linarith
        have hff : ⌊q⌋ < ⌊r⌋ := by exact_mod_cast hfq
        calc pyRound q ≤ ⌊q⌋ + 1 := pyRound_le_floor_add_one q
          _ ≤ ⌊r⌋ := by omega
          _ ≤ pyRound r := floor_le_pyRound r
    · have hlt : q < r := lt_of_le_of_ne h (by rintro rfl; exact hq hr)
      have hr2 : r = (⌊r⌋ : ℚ) + 1/2 := by linarith
      have he : pyRound q = ⌊q + 1/2⌋ := by unfold pyRound; rw [if_neg hq]
      rw [he]
      have h2 : ⌊q + 1/2⌋ ≤ ⌊r⌋ := by
        have : ⌊q + 1/2⌋ < ⌊r⌋ + 1 := by
          rw [Int.floor_lt]
          push_cast
          linarith
        omega
      exact le_trans h2 (floor_le_pyRound r)
  · have he : pyRound r = ⌊r + 1/2⌋ := by unfold pyRound; rw [if_neg hr]
    rw [he]
    exact le_trans (pyRound_le_floor_add_half q) (Int.floor_mono (by linarith))

/-- One loop step on an empty accumulator. -/
theorem rangeLoop_succ_nil (n : ℕ) (c s : ℚ) :
    rangeLoop (n + 1) c s [] = rangeLoop n (c + s) s [pyRound c] := rfl

/-- One loop step on a nonempty accumulator. -/
theorem rangeLoop_succ_cons (n : ℕ) (c s : ℚ) (last : ℤ) (rest : List ℤ) :
    rangeLoop (n + 1) c s (last :: rest) =
      rangeLoop n (c + s) s
        (if pyRound c = last then last :: rest else pyRound c :: last :: rest) := rfl

/-- After at least one iteration the most recently emitted value is the
rounding of the last `current` visited. -/
theorem rangeLoop_head (n : ℕ) : ∀ (c s : ℚ) (rev : List ℤ),
    (rangeLoop (n + 1) c s rev).head? = some (pyRound (c + n * s)) := by
  induction n with
  | zero =>
    intro c s rev
    rcases rev with _ | ⟨last, rest⟩
    · rw [rangeLoop_succ_nil]
      simp [rangeLoop]
    · rw [rangeLoop_succ_cons]
      split_ifs with h
      · simp [rangeLoop, h]
      · simp [rangeLoop]
  | succ n ih =>
    intro c s rev
    have harg : c + s + (n : ℚ) * s = c + ((n : ℕ) + 1 : ℕ) * s := by push_cast; ring
    rcases rev with _ | ⟨last, rest⟩
    · rw [rangeLoop_succ_nil, ih (c + s) s [pyRound c], harg]
    · rw [rangeLoop_succ_cons]
      split_ifs with h
      · rw [ih (c + s) s (last :: rest), harg]
      · rw [ih (c + s) s (pyRound c :: last :: rest), harg]

/-- The loop never discards the bottom of a nonempty accumulator. -/
theorem rangeLoop_getLast (n : ℕ) : ∀ (c s : ℚ) (last : ℤ) (rest : List ℤ),
    (rangeLoop n c s (last :: rest)).getLast? = (last :: rest).getLast? := by
  induction n with
  | zero => intro c s last rest; rfl
  | succ n ih =>
    intro c s last rest
    rw [rangeLoop_succ_cons]
    split_ifs with h
    · exact ih (c + s) s last rest
    · rw [ih (c + s) s (pyRound c) (last :: rest)]
      exact List.getLast?_cons_cons

/-- Loop invariant: with a nonnegative step, the reversed accumulator
stays strictly decreasing and bounded by the rounding of the current
position. -/
theorem rangeLoop_chain (n : ℕ) : ∀ (c s : ℚ) (rev : List ℤ), 0 ≤ s →
    rev.Chain' (fun a b => b < a) →
    (∀ x ∈ rev, x ≤ pyRound c) →
    (rangeLoop n c s rev).Chain' (fun a b => b < a) ∧
    (∀ x ∈ rangeLoop n c s rev, x ≤ pyRound (c + n * s)) := by
  induction n with
  | zero =>
    intro c s rev hs hch hb
    refine ⟨hch, ?_⟩
    intro x hx
    have := hb x hx
    simpa using this
  | succ n ih =>
    intro c s rev hs hch hb
    have hmono : pyRound c ≤ pyRound (c + s) := pyRound_mono (by linarith)
    have harg : c + s + (n : ℚ) * s = c + ((n : ℕ) + 1 : ℕ) * s := by push_cast; ring
    rcases rev with _ | ⟨last, rest⟩
    · rw [rangeLoop_succ_nil]
      have h2 := ih (c + s) s [pyRound c] hs (List.chain'_singleton _)
        (by intro x hx; simp at hx; omega)
      refine ⟨h2.1, ?_⟩
      rw [← harg]
      exact h2.2
    · rw [rangeLoop_succ_cons]
      split_ifs with h
      · have h2 := ih (c + s) s (last :: rest) hs hch
          (by intro x hx; exact le_trans (hb x hx) hmono)
        refine ⟨h2.1, ?_⟩
        rw [← harg]
        exact h2.2
      · have hlast : last < pyRound c :=
          lt_of_le_of_ne (hb last (List.mem_cons_self last rest)) (fun he => h he.symm)
        have hch2 : (pyRound c :: last :: rest).Chain' (fun a b => b < a) :=
          List.chain'_cons.mpr ⟨hlast, hch⟩
        have hb2 : ∀ x ∈ pyRound c :: last :: rest, x ≤ pyRound (c + s) := by
          intro x hx
          rcases List.mem_cons.mp hx with rfl | hx2
          · exact hmono
          · exact le_trans (hb x hx2) hmono
        have h2 := ih (c + s) s (pyRound c :: last :: rest) hs hch2 hb2
        refine ⟨h2.1, ?_⟩
        rw [← harg]
        exact h2.2

/-- Writing the value already at the head is a no-op. -/
theorem setFirst_self (l : List ℤ) (v : ℤ) (h : l.head? = some v) : setFirst l v = l := by
  rcases l with _ | ⟨a, t⟩
  · rfl
  · simp only [List.head?_cons, Option.some.injEq] at h
    rw [setFirst, h]

/-- Writing the value already at the end is a no-op. -/
theorem setLast_self (l : List ℤ) (v : ℤ) (h : l.getLast? = some v) : setLast l v = l := by
  induction l with
  | nil => rfl
  | cons a t ih =>
    rcases t with _ | ⟨b, u⟩
    · simp only [List.getLast?_singleton, Option.some.injEq] at h
      rw [setLast, h]
    · rw [List.getLast?_cons_cons] at h
      rw [setLast, ih h]

/-- C4: with target count 16, `generate_range_values` returns a strictly
increasing (in particular non-decreasing) list of integers whose first
element is the computed lower bound `int(min_val + 0.5)` and whose last
element is the computed upper bound `int(max_val)`, and it returns the
empty list exactly when the lower bound exceeds the upper bound. -/
theorem generate_range_values_spec (min_val max_val : ℚ) :
    (generate_range_values min_val max_val 16 = [] ↔
      pyTrunc max_val < pyTrunc (min_val + 1/2)) ∧
    (generate_range_values min_val max_val 16).Chain' (· < ·) ∧
    (pyTrunc (min_val + 1/2) ≤ pyTrunc max_val →
      (generate_range_values min_val max_val 16).head? = some (pyTrunc (min_val + 1/2)) ∧
      (generate_range_values min_val max_val 16).getLast? = some (pyTrunc max_val)) := by
  by_cases hlt : pyTrunc max_val < pyTrunc (min_val + 1/2)
  · simp only [generate_range_values]
    rw [if_pos hlt]
    exact ⟨⟨fun _ => hlt, fun _ => rfl⟩, List.chain'_nil,
      fun hc => absurd hlt (not_lt.mpr hc)⟩
  · have hle : pyTrunc (min_val + 1/2) ≤ pyTrunc max_val := not_lt.mp hlt
    simp only [generate_range_values]
    rw [if_neg hlt]
    set a : ℤ := pyTrunc (min_val + 1/2) with ha
    set b : ℤ := pyTrunc max_val with hb
    set st : ℚ := (((b : ℤ) : ℚ) - ((a : ℤ) : ℚ)) / (((16 : ℕ) : ℚ) - 1) with hst
    have hs : 0 ≤ st := by
      rw [hst]
      apply div_nonneg
      · have hab : ((a : ℤ) : ℚ) ≤ ((b : ℤ) : ℚ) := by exact_mod_cast hle
        linarith
      · norm_num
    have hhead : (rangeLoop 16 ((a : ℤ) : ℚ) st []).head? = some b := by
      rw [show (16 : ℕ) = 15 + 1 from rfl, rangeLoop_head 15 ((a : ℤ) : ℚ) st []]
      have harg : ((a : ℤ) : ℚ) + ((15 : ℕ) : ℚ) * st = ((b : ℤ) : ℚ) := by
        rw [hst]
        push_cast
        ring_nf
      rw [harg, pyRound_intCast]
    have hglast : (rangeLoop 16 ((a : ℤ) : ℚ) st []).getLast? = some a := by
      rw [show (16 : ℕ) = 15 + 1 from rfl, rangeLoop_succ_nil, rangeLoop_getLast]
      simp [pyRound_intCast]
    have hchain := (rangeLoop_chain 16 ((a : ℤ) : ℚ) st [] hs List.chain'_nil
      (by intro x hx; cases hx)).1
    have hrevhead : ((rangeLoop 16 ((a : ℤ) : ℚ) st []).reverse).head? = some a := by
      rw [List.head?_reverse]
      exact hglast
    have hrevlast : ((rangeLoop 16 ((a : ℤ) : ℚ) st []).reverse).getLast? = some b := by
      rw [List.getLast?_reverse]
      exact hhead
    have hrevchain : ((rangeLoop 16 ((a : ℤ) : ℚ) st []).reverse).Chain' (· < ·) := by
      rw [List.chain'_reverse]
      exact hchain
    have hL : setLast (setFirst ((rangeLoop 16 ((a : ℤ) : ℚ) st []).reverse) a) b
        = (rangeLoop 16 ((a : ℤ) : ℚ) st []).reverse := by
      rw [setFirst_self _ _ hrevhead, setLast_self _ _ hrevlast]
    rw [hL]
    refine ⟨⟨fun hnil => ?_, fun hc => absurd hc hlt⟩, hrevchain,
      fun _ => ⟨hrevhead, hrevlast⟩⟩
    rw [hnil] at hrevhead
    exact Option.noConfusion hrevhead

/-- C4 witness: bounds 1 and 10 give a list running from 1 to 10. -/
theorem generate_range_values_spec_witness :
    (generate_range_values 1 10 16).head? = some 1 ∧
    (generate_range_values 1 10 16).getLast? = some 10 := by
  have h := (generate_range_values_spec 1 10).2.2 (by norm_num [pyTrunc])
  have e1 : pyTrunc (1 + 1/2 : ℚ) = 1 := by norm_num [pyTrunc]
  have e2 : pyTrunc (10 : ℚ) = 10 := by norm_num [pyTrunc]
  rw [e1, e2] at h
  exact h

/-- Folding `max` never drops below the initial accumulator. -/
theorem foldl_max_le_init (t : List ℚ) : ∀ a : ℚ, a ≤ t.foldl max a := by
  induction t with
  | nil => intro a; exact le_refl a
  | cons b u ih => intro a; exact le_trans (le_max_left a b) (ih (max a b))

/-- Every member is below the `max` fold. -/
theorem mem_le_foldl_max (t : List ℚ) : ∀ (a x : ℚ), x ∈ t → x ≤ t.foldl max a := by
  induction t with
  | nil => intro a x hx; cases hx
  | cons b u ih =>
    intro a x hx
    rcases List.mem_cons.mp hx with rfl | h2
    · exact le_trans (le_max_right a x) (foldl_max_le_init u (max a x))
    · exact ih (max a b) x h2

/-- The `min` fold is attained by the accumulator or a member. -/
theorem foldl_min_mem (t : List ℚ) : ∀ a : ℚ, t.foldl min a ∈ a :: t := by
  induction t with
  | nil => intro a; exact List.mem_singleton.mpr rfl
  | cons b u ih =>
    intro a
    rw [List.foldl_cons]
    rcases List.mem_cons.mp (ih (min a b)) with he | h2
    · rw [he]
      rcases min_choice a b with h3 | h3
      · rw [h3]; exact List.mem_cons_self a _
      · rw [h3]; exact List.mem_cons_of_mem a (List.mem_cons_self b u)
    · exact List.mem_cons_of_mem a (List.mem_cons_of_mem b h2)

/-- Members bound `listMax` from below. -/
theorem le_listMax (l : List ℚ) (x : ℚ) (hx : x ∈ l) : x ≤ listMax l := by
  rcases l with _ | ⟨a, t⟩
  · cases hx
  · rcases List.mem_cons.mp hx with rfl | h2
    · exact foldl_max_le_init t x
    · exact mem_le_foldl_max t a x h2

/-- `listMin` of a nonempty list is one of its members. -/
theorem listMin_mem (l : List ℚ) (h : l ≠ []) : listMin l ∈ l := by
  rcases l with _ | ⟨a, t⟩
  · exact absurd rfl h
  · exact foldl_min_mem t a

/-- Any day key comes from some candle of the input. -/
theorem exists_of_mem_dayKeys_go (candles : List Candle) : ∀ (acc : List ℤ) (x : ℤ),
    x ∈ candles.foldl (fun ks c => if c.date.day ∈ ks then ks else ks ++ [c.date.day]) acc →
    x ∈ acc ∨ ∃ c ∈ candles, c.date.day = x := by
  induction candles with
  | nil => intro acc x hx; exact Or.inl hx
  | cons c cs ih =>
    intro acc x hx
    rw [List.foldl_cons] at hx
    rcases ih _ x hx with h2 | ⟨c2, hc2, he⟩
    · split_ifs at h2 with h3
      · exact Or.inl h2
      · rcases List.mem_append.mp h2 with h4 | h4
        · exact Or.inl h4
        · refine Or.inr ⟨c, List.mem_cons_self c cs, ?_⟩
          have h5 : x = c.date.day := by simpa using h4
          exact h5.symm
    · exact Or.inr ⟨c2, List.mem_cons_of_mem c hc2, he⟩

/-- The fold building the day keys never empties a nonempty accumulator. -/
theorem dayKeys_go_ne_nil (candles : List Candle) : ∀ acc : List ℤ, acc ≠ [] →
    candles.foldl (fun ks c => if c.date.day ∈ ks then ks else ks ++ [c.date.day]) acc ≠ [] := by
  induction candles with
  | nil => intro acc h; simpa using h
  | cons c cs ih =>
    intro acc h
    rw [List.foldl_cons]
    apply ih
    split_ifs with h2
    · exact h
    · intro hcon
      exact absurd (List.append_eq_nil.mp hcon).2 (by simp)

/-- A nonempty candle sequence yields a nonempty key list. -/
theorem dayKeys_ne_nil (candles : List Candle) (h : candles ≠ []) :
    dayKeys candles ≠ [] := by
  rcases candles with _ | ⟨c, cs⟩
  · exact absurd rfl h
  · unfold dayKeys
    rw [List.foldl_cons]
    apply dayKeys_go_ne_nil
    split_ifs with h2
    · cases h2
    · simp

/-- A sum of nonnegative rationals vanishes only if every term does. -/
theorem sum_zero_of_nonneg (l : List ℚ) (h : ∀ x ∈ l, 0 ≤ x) (hs : l.sum = 0) :
    ∀ x ∈ l, x = 0 := by
  induction l with
  | nil => intro x hx; cases hx
  | cons a t ih =>
    rw [List.sum_cons] at hs
    have h1 : 0 ≤ a := h a (List.mem_cons_self a t)
    have h2 : 0 ≤ t.sum := List.sum_nonneg (fun x hx => h x (List.mem_cons_of_mem a hx))
    have ha : a = 0 := by linarith
    have ht : t.sum = 0 := by linarith
    intro x hx
    rcases List.mem_cons.mp hx with rfl | h3
    · exact ha
    · exact ih (fun y hy => h y (List.mem_cons_of_mem a hy)) ht x h3

/-- The per-day range is nonnegative on well-formed candles. -/
theorem dailyGap_nonneg (candles : List Candle) (hwf : ∀ c ∈ candles, c.low ≤ c.high)
    (d : ℤ) (hd : d ∈ dayKeys candles) : 0 ≤ dailyGap candles d := by
  obtain ⟨c0, hc0, hday⟩ :=
    (exists_of_mem_dayKeys_go candles [] d hd).resolve_left (by intro hx; cases hx)
  have hc0g : c0 ∈ dayGroup candles d := by
    unfold dayGroup
    rw [List.mem_filter]
    exact ⟨hc0, by simp [hday]⟩
  have hlows : (dayGroup candles d).map Candle.low ≠ [] := by
    intro hcon
    rw [List.map_eq_nil_iff] at hcon
    rw [hcon] at hc0g
    cases hc0g
  obtain ⟨c1, hc1, he1⟩ := List.mem_map.mp (listMin_mem _ hlows)
  have h2 : c1.high ≤ listMax ((dayGroup candles d).map Candle.high) :=
    le_listMax _ _ (List.mem_map_of_mem Candle.high hc1)
  have h3 : c1.low ≤ c1.high := hwf c1 (List.mem_filter.mp hc1).1
  unfold dailyGap
  rw [← he1]
  linarith

/-- C7 (amended): for a nonempty candle sequence whose candles satisfy
`low ≤ high`, the average daily range is nonnegative, and it is zero
exactly when every calendar day present has zero spread (its maximum
high equals its minimum low). -/
theorem average_daily_gap_nonneg (candles : List Candle) (hne : candles ≠ [])
    (hwf : ∀ c ∈ candles, c.low ≤ c.high) :
    0 ≤ average_daily_gap candles ∧
    (average_daily_gap candles = 0 ↔
      ∀ d ∈ dayKeys candles,
        listMax ((dayGroup candles d).map Candle.high) =
          listMin ((dayGroup candles d).map Candle.low)) := by
  have hkeys := dayKeys_ne_nil candles hne
  have hgapsne : (dayKeys candles).map (dailyGap candles) ≠ [] := by
    intro hcon
    rw [List.map_eq_nil_iff] at hcon
    exact hkeys hcon
  have hnn : ∀ x ∈ (dayKeys candles).map (dailyGap candles), 0 ≤ x := by
    intro x hx
    obtain ⟨d, hd, rfl⟩ := List.mem_map.mp hx
    exact dailyGap_nonneg candles hwf d hd
  have hsum : 0 ≤ ((dayKeys candles).map (dailyGap candles)).sum := List.sum_nonneg hnn
  have hlenpos : 0 < ((((dayKeys candles).map (dailyGap candles)).length : ℕ) : ℚ) := by
    have h2 : 0 < ((dayKeys candles).map (dailyGap candles)).length :=
      List.length_pos.mpr hgapsne
    exact_mod_cast h2
  unfold average_daily_gap
  dsimp only
  rw [if_neg hgapsne]
  refine ⟨div_nonneg hsum (le_of_lt hlenpos), ?_⟩
  rw [div_eq_zero_iff]
  constructor
  · rintro (hs | hl)
    · intro d hd
      have hz := sum_zero_of_nonneg _ hnn hs (dailyGap candles d)
        (List.mem_map_of_mem _ hd)
      unfold dailyGap at hz
      exact sub_eq_zero.mp hz
    · exact absurd hl (ne_of_gt hlenpos)
  · intro hall
    left
    apply List.sum_eq_zero
    intro x hx
    obtain ⟨d, hd, rfl⟩ := List.mem_map.mp hx
    unfold dailyGap
    rw [hall d hd]
    exact sub_self _

/-- C7 witness: a single well-formed candle gives a nonnegative average. -/
theorem average_daily_gap_nonneg_witness : 0 ≤ average_daily_gap [cEx] :=
  (average_daily_gap_nonneg [cEx] (by simp)
    (by
      intro c hc
      rw [List.mem_singleton] at hc
      rw [hc]
      norm_num [cEx])).1

/-- C7 counterexample: nothing validates the bars, and a candle whose
recorded high lies below its low makes the average daily range
negative, refuting the unconditional nonnegativity claim. -/
theorem average_daily_gap_neg_on_malformed : average_daily_gap [cBad] < 0 := by
  norm_num [average_daily_gap, dayKeys, dayGroup, dailyGap, listMax, listMin, cBad, dEx]

/-- Truncation toward zero is monotone. -/
theorem pyTrunc_mono {q r : ℚ} (h : q ≤ r) : pyTrunc q ≤ pyTrunc r := by
  unfold pyTrunc
  split_ifs with h1 h2 h2
  · exact Int.floor_mono h
  · exact absurd (le_trans h1 h) h2
  · have ha : 0 ≤ ⌊-q⌋ := Int.floor_nonneg.mpr (by linarith)
    have hb : 0 ≤ ⌊r⌋ := Int.floor_nonneg.mpr h2
    omega
  · have h3 := Int.floor_mono (neg_le_neg h)
    omega

/-- `random_in_bounds` stays inside `[lo, hi]` whenever `lo ≤ hi` and
the randint outcome honours its contract. -/
theorem random_in_bounds_mem (lo hi : ℤ) (coin : Bool) (draw : ℤ → ℤ → ℤ)
    (hle : lo ≤ hi) (hdraw : ∀ a b : ℤ, a ≤ b → a ≤ draw a b ∧ draw a b ≤ b) :
    lo ≤ random_in_bounds lo hi coin draw ∧ random_in_bounds lo hi coin draw ≤ hi := by
  unfold random_in_bounds
  dsimp only
  split_ifs with h1 h2 h3 h4
  · omega
  · omega
  · omega
  · omega
  · have hd : lo + 1 ≤ hi - 1 := by omega
    have h5 := hdraw (lo + 1) (hi - 1) hd
    omega

/-- C6 (amended): every state produced by the anchor sampler has its
anchor inside the truncated interval `[int(low), int(high)]` of the
randomly chosen candle, and `random_in_bounds` obeys the stated
boundary behaviour for every outcome of the random draws. -/
theorem anchor_in_truncated_bounds (rnd : ℤ → HourRand)
    (hval : ∀ h : ℤ, (rnd h).Valid) (date : PyDateTime) (data : List Candle) (thr : ℤ)
    (hwf : ∀ c ∈ data, c.low ≤ c.high) :
    (∀ td ∈ get_random_hourly_candles rnd date data thr,
      ∃ c ∈ data, td.time = c.date ∧
        pyTrunc c.low ≤ td.start_value ∧ td.start_value ≤ pyTrunc c.high) ∧
    (∀ (lo hi : ℤ) (coin : Bool) (draw : ℤ → ℤ → ℤ),
      lo ≤ hi → (∀ a b : ℤ, a ≤ b → a ≤ draw a b ∧ draw a b ≤ b) →
      lo ≤ random_in_bounds lo hi coin draw ∧
      random_in_bounds lo hi coin draw ≤ hi ∧
      (lo = hi → random_in_bounds lo hi coin draw = lo) ∧
      (hi - lo = 1 →
        random_in_bounds lo hi coin draw = lo ∨ random_in_bounds lo hi coin draw = hi) ∧
      (hi - lo = 2 → random_in_bounds lo hi coin draw = lo + 1) ∧
      (2 < hi - lo → lo < random_in_bounds lo hi coin draw ∧
        random_in_bounds lo hi coin draw < hi)) := by
  constructor
  · intro td htd
    unfold get_random_hourly_candles at htd
    obtain ⟨hour, hmem, hf⟩ := List.mem_filterMap.mp htd
    dsimp only at hf
    split_ifs at hf with hb
    have htdeq := Option.some.inj hf
    set bucket := data.filter
      (fun c => decide (PyDateTime.le (date.replaceHMS hour) c.date ∧
        PyDateTime.lt c.date ((date.replaceHMS hour).addHours 1))) with hbucket
    have hpick : (rnd hour).pick bucket ∈ bucket := (hval hour).1 bucket hb
    have hdata : (rnd hour).pick bucket ∈ data := (List.mem_filter.mp hpick).1
    refine ⟨(rnd hour).pick bucket, hdata, ?_, ?_, ?_⟩
    · rw [← htdeq]
    · rw [← htdeq]
      exact (random_in_bounds_mem _ _ _ _
        (pyTrunc_mono (hwf _ hdata)) (hval hour).2).1
    · rw [← htdeq]
      exact (random_in_bounds_mem _ _ _ _
        (pyTrunc_mono (hwf _ hdata)) (hval hour).2).2
  · intro lo hi coin draw hle hdraw
    obtain ⟨hl, hr⟩ := random_in_bounds_mem lo hi coin draw hle hdraw
    refine ⟨hl, hr, ?_, ?_, ?_, ?_⟩
    · intro he
      unfold random_in_bounds
      dsimp only
      rw [if_pos he]
    · intro hd
      unfold random_in_bounds
      dsimp only
      rw [if_neg (by omega), if_pos hd]
      cases coin <;> simp
    · intro hd
      unfold random_in_bounds
      dsimp only
      rw [if_neg (by omega), if_neg (by omega), if_pos hd]
    · intro hd
      have h1 : random_in_bounds lo hi coin draw = draw (lo + 1) (hi - 1) := by
        unfold random_in_bounds
        dsimp only
        rw [if_neg (by omega), if_neg (by omega), if_neg (by omega)]
      have h2 := hdraw (lo + 1) (hi - 1) (by omega)
      rw [h1]
      omega

/-- The concrete random source honours the contract. -/
theorem rndH_valid (h : ℤ) : (rndH h).Valid := by
  constructor
  · intro l hl
    rcases l with _ | ⟨a, t⟩
    · exact absurd rfl hl
    · exact List.mem_cons_self a t
  · intro a b hab
    exact ⟨le_refl a, hab⟩

/-- C6 witness: the `random_in_bounds` contract at concrete bounds. -/
theorem anchor_in_truncated_bounds_witness :
    1 ≤ random_in_bounds 1 10 true (fun lo _ => lo) ∧
    random_in_bounds 1 10 true (fun lo _ => lo) ≤ 10 := by
  have h := (anchor_in_truncated_bounds rndH rndH_valid dEx [cEx] 5
    (by
      intro c hc
      rw [List.mem_singleton] at hc
      rw [hc]
      norm_num [cEx])).2 1 10 true (fun lo _ => lo) (by omega)
    (fun a b hab => ⟨le_refl a, hab⟩)
  exact ⟨h.1, h.2.1⟩

/-- C6 counterexample: for the flat candle at price 100.5 the sampler
returns anchor 100, strictly below the raw low, so the anchor does not
lie in the raw `[low, high]` interval. -/
theorem anchor_outside_candle_bounds :
    (get_random_hourly_candles rndH dEx [cHalf] 5).map TimeData.start_value = [100] ∧
    ((100 : ℤ) : ℚ) < cHalf.low := by
  constructor
  · norm_num [get_random_hourly_candles, rndH, cHalf, dEx, cFallback,
      PyDateTime.replaceHMS, PyDateTime.addHours, PyDateTime.le, PyDateTime.lt,
      random_in_bounds, pyTrunc, TimeData.default, List.filter_cons,
      List.filterMap_cons]
  · norm_num [cHalf]

/-- Running the full pipeline on one well-formed candle with the
non-positive margin -5 yields a two-threshold grid, not an error. -/
theorem analysis_cGood_eval : analysis [cGood] (-5) rndSrc = Option.some gridGood := by
  norm_num [analysis, average_daily_gap, dayKeys, dayGroup, dailyGap, listMax, listMin,
    generate_range_values, rangeLoop, pyRound, pyTrunc, setFirst, setLast, sortInt,
    insertSorted, generate_date_array, generate_date_array_go, PyDateTime.addDays,
    PyDateTime.le, PyDateTime.lt, get_random_hourly_candles, PyDateTime.replaceHMS,
    PyDateTime.addHours, check_in_threshold, check_in_date_data, cGood, dH8, gridGood,
    rndSrc, rndH, List.filter_cons, List.filterMap_cons, List.getLast_singleton]

/-- On an empty candle list the model reports the uncaught read of the
first candle as a failure. -/
theorem analysis_nil_eval : analysis [] (-5) rndSrc = Option.none := by
  simp [analysis]

/-- A malformed candle drives the average range negative, the computed
lower bound then exceeds the upper bound, and the pipeline returns an
empty grid without any error. -/
theorem analysis_cBad_eval : analysis [cBad] 10 rndSrc = Option.some [] := by
  norm_num [analysis, average_daily_gap, dayKeys, dayGroup, dailyGap, listMax, listMin,
    generate_range_values, pyTrunc, setFirst, setLast, sortInt, insertSorted,
    generate_date_array, generate_date_array_go, PyDateTime.addDays, PyDateTime.le,
    PyDateTime.lt, cBad, dEx, rndSrc, List.filter_cons, List.getLast_singleton]

/-- C5 counterexample: a non-positive margin is not rejected; the
pipeline runs to completion and produces a nonempty result grid. -/
theorem nonpositive_margin_not_rejected :
    analysis [cGood] (-5) rndSrc = Option.some gridGood ∧ gridGood ≠ [] := by
  refine ⟨analysis_cGood_eval, ?_⟩
  simp [gridGood]

/-- C5 (amended): an empty candle sequence fails only through the
uncaught read of the first candle, after the average range and the
threshold list have been computed; a non-positive margin is accepted
and yields a result grid; data whose average range makes the computed
lower bound exceed the upper bound yields an empty threshold list and
an empty result, without an error. -/
theorem analysis_error_behaviour :
    analysis [] (-5) rndSrc = Option.none ∧
    (analysis [cGood] (-5) rndSrc).isSome = true ∧
    analysis [cGood] (-5) rndSrc ≠ Option.some [] ∧
    analysis [cBad] 10 rndSrc = Option.some [] := by
  refine ⟨analysis_nil_eval, ?_, ?_, analysis_cBad_eval⟩
  · rw [analysis_cGood_eval]
    rfl
  · rw [analysis_cGood_eval]
    intro hcon
    have h2 := Option.some.inj hcon
    simp [gridGood] at h2
